import Mathlib

/-!
Verification development for the selin-context-extender core subsystems:
the request-admission controller (sliding-window rate limiter backed by a
Redis sorted set, services/api-gateway/rate_limiter.go) and the real-time
connection hub (services/mcp-server/main.go).

Timestamps are modelled as `Int` nanoseconds since the Unix epoch (the code
uses `time.Time.UnixNano`, an int64; Redis stores scores as float64, which
for present-day nanosecond values loses sub-microsecond precision — that
rounding is immaterial to every property below and is not modelled).
A Redis sorted set keyed by member string `%d` of the nanosecond value is
modelled as a `List Int` of the recorded timestamps; adding an already
present member is a score update, i.e. a no-op on the set.
-/

/-- The rate limiter configuration, from `RateLimiter` in
services/api-gateway/rate_limiter.go: a request limit and a window duration
in nanoseconds. The Redis client handle carries no windowing state and is
not modelled. -/
structure RateLimiter where
  limit : Int
  window : Int
deriving DecidableEq

/-- Value of a decimal digit character, used by the `strconv.Atoi` model. -/
def digitVal (c : Char) : Option Nat :=
  if c.isDigit then some (c.toNat - 48) else none

/-- Parse a nonempty all-digit character list as a natural number
(accumulating left to right as `strconv.Atoi` does). -/
def parseNatDigits (cs : List Char) : Option Nat :=
  match cs with
  | [] => none
  | _ => cs.foldlM (fun acc c => (digitVal c).map (fun d => acc * 10 + d)) 0

/-- Model of Go `strconv.Atoi`: an optional sign followed by at least one
decimal digit; anything else is a parse error (`none`). Arbitrary precision
is used; the int64 range check only matters for inputs far larger than any
realistic rate limit. -/
def atoi (s : String) : Option Int :=
  match s.data with
  | '-' :: rest => (parseNatDigits rest).map (fun n => -(n : Int))
  | '+' :: rest => (parseNatDigits rest).map (fun n => (n : Int))
  | cs => (parseNatDigits cs).map (fun n => (n : Int))

/-- Model of `NewRateLimiter` (rate_limiter.go lines 20-46), parametrised by
the value of the `RATE_LIMIT` environment variable (`os.Getenv` yields `""`
when unset). The limit defaults to 60 and is replaced by any value that
`strconv.Atoi` parses — with no validation of sign or magnitude; the window
is hard-coded to `time.Minute` = 60e9 ns. Construction is total: there is no
error return and no validation failure path in the source. -/
def newRateLimiter (rateLimitEnv : String) : RateLimiter :=
  { limit :=
      if rateLimitEnv = "" then 60
      else
        match atoi rateLimitEnv with
        | some n => n
        | none => 60,
    window := 60000000000 }

/-- The window start used by `IsAllowed`: `now.Add(-rl.window)`. -/
def windowStart (rl : RateLimiter) (now : Int) : Int := now - rl.window

/-- Model of the `ZRemRangeByScore(ctx, key, "0", windowStart)` step of the
pipeline (rate_limiter.go line 62): Redis removes every member whose score
lies in the inclusive range [0, windowStart], so the retained timestamps are
those below 0 or strictly above `windowStart`. -/
def prunedTimestamps (rl : RateLimiter) (ts : List Int) (now : Int) : List Int :=
  ts.filter (fun t => !(decide (0 ≤ t) && decide (t ≤ windowStart rl now)))

/-- Model of the `ZAdd` step (rate_limiter.go lines 68-71): the member is
the decimal string of `now`, so adding an already recorded timestamp updates
its (identical) score rather than growing the set. -/
def zAddNow (ts : List Int) (now : Int) : List Int :=
  if now ∈ ts then ts else ts ++ [now]

/-- The prune / count / add pipeline of `IsAllowed` (rate_limiter.go lines
59-81) on a single key's recorded timestamps: returns the `ZCard` count
taken after pruning and before adding, together with the stored timestamps
after the current request is recorded. The `Expire` step only refreshes the
key's TTL and does not change the set. -/
def pruneCountAdd (rl : RateLimiter) (ts : List Int) (now : Int) : Nat × List Int :=
  let remaining := prunedTimestamps rl ts now
  (remaining.length, zAddNow remaining now)

/-- Identity normalisation at the top of `IsAllowed` (lines 49-51): an empty
identity becomes the single identity string of unauthenticated callers. -/
def normalizeUserID (userID : String) : String :=
  if userID = "" then "anonymous" else userID

/-- The Redis key for an identity (line 53). -/
def rateKey (userID : String) : String := "rate_limit:" ++ normalizeUserID userID

/-- Pointwise update of the keyed store. -/
def updateStore (store : String → List Int) (key : String) (v : List Int) :
    String → List Int :=
  fun k => if k = key then v else store k

/-- Model of `RateLimiter.IsAllowed` (rate_limiter.go lines 48-83). The
shared counter store is a map from key to recorded timestamps; `storeFail`
models whether `pipe.Exec` fails (Redis unreachable or operation failure),
in which case the Go code returns `(false, wrapped error)` — modelled as
`Except.error` so that the error outcome is distinguishable from an ordinary
denial. On success it returns whether the count before adding the current
request was strictly below the limit, plus the updated store. -/
def isAllowed (rl : RateLimiter) (store : String → List Int) (userID : String)
    (now : Int) (storeFail : Bool) : Except String Bool × (String → List Int) :=
  let key := rateKey userID
  if storeFail then
    (Except.error "rate limit check failed", store)
  else
    let res := pruneCountAdd rl (store key) now
    (Except.ok (decide ((res.1 : Int) < rl.limit)), updateStore store key res.2)

/-- Run a sequence of `IsAllowed` calls for one identity at the given times,
threading the store, and collect the boolean decisions. -/
def runCalls (rl : RateLimiter) (store : String → List Int) (userID : String) :
    List Int → List Bool
  | [] => []
  | t :: rest =>
    let res := isAllowed rl store userID t false
    (match res.1 with
     | Except.ok b => b
     | Except.error _ => false) :: runCalls rl res.2 userID rest

/-- The outcome of one request through the rate-limiting middleware:
either the store operation failed (HTTP 500, handler not invoked), or the
caller is over limit (HTTP 429 with a Retry-After header, handler not
invoked), or the wrapped handler runs. -/
inductive MWResult where
  | storeFailure (status : Nat)
  | rateLimited (status : Nat) (retryAfter : String)
  | proceed
deriving DecidableEq

/-- Identity resolution in `Middleware` (rate_limiter.go lines 92-97): the
`X-User-ID` header if present, otherwise the request's `RemoteAddr`. -/
def middlewareUserID (headerUserID remoteAddr : String) : String :=
  if headerUserID = "" then remoteAddr else headerUserID

/-- Model of `RateLimiter.Middleware` (rate_limiter.go lines 90-113):
resolves the identity, consults `IsAllowed`, and maps its result to one of
the three outcomes. The hard-coded Retry-After value is the string of the
window duration in seconds. -/
def middleware (rl : RateLimiter) (store : String → List Int)
    (headerUserID remoteAddr : String) (now : Int) (storeFail : Bool) : MWResult :=
  let uid := middlewareUserID headerUserID remoteAddr
  match (isAllowed rl store uid now storeFail).1 with
  | Except.error _ => MWResult.storeFailure 500
  | Except.ok false => MWResult.rateLimited 429 "60"
  | Except.ok true => MWResult.proceed
/-!
Connection hub (services/mcp-server/main.go). Broadcast payloads are opaque
byte slices, modelled as strings. A Go buffered channel of byte slices is
modelled as a bounded queue with a closed flag; the hub's non-blocking
`select ... default` send is `trySend`, which fails exactly when the buffer
is at capacity. Clients are identified by `Nat` tokens standing for the
`*Client` pointers; the Go registry `map[*Client]bool` is the `clients`
list, with map iteration order modelled as list order (no claim depends on
the order). The hub goroutine of `Hub.run` (lines 1040-1086) consumes one
command at a time from its channels, so its behaviour is a step function
over a command list. Sends on a closed channel cannot occur: the hub closes
a channel only at the moment it deletes the client from the registry, and
the registry invariant below shows every registered client's channel stays
open.
-/

/-- The message type: an opaque payload. -/
abbrev Msg := String

/-- A session's bounded outbound queue: Go `chan []byte` with capacity
`cap` (256 in `wsHandler`), its buffered contents in FIFO order, and
whether `close` has been called on it. -/
structure Chan where
  buf : List Msg
  cap : Nat
  closed : Bool
deriving DecidableEq

/-- Non-blocking send, a Go select on the channel send with a default
branch: succeeds
iff the buffer has free space, otherwise takes the default branch. -/
def trySend (ch : Chan) (m : Msg) : Option Chan :=
  if ch.buf.length < ch.cap then some { ch with buf := ch.buf ++ [m] } else none

/-- Go `close(ch)`: marks the queue closed; buffered messages remain
receivable. -/
def closeChan (ch : Chan) : Chan := { ch with closed := true }

/-- The fresh queue created per accepted handshake in `wsHandler`
(line 1183): `make(chan []byte, 256)`. -/
def freshChan : Chan := { buf := [], cap := 256, closed := false }

/-- The one-time welcome payload sent on registration (lines 1050-1055);
its JSON bytes are modelled opaquely. -/
def welcomeMsg : Msg := "welcome"

/-- The hub's state: the registry of client tokens and each token's
outbound queue. -/
structure HubState where
  clients : List Nat
  chan : Nat → Chan

/-- Pointwise update of the per-client queue map. -/
def updateChan (f : Nat → Chan) (k : Nat) (v : Chan) : Nat → Chan :=
  fun q => if q = k then v else f q

/-- The register case of `Hub.run` (lines 1043-1062), together with the
client creation in `wsHandler` that always precedes it (each registered
`*Client` is a fresh pointer with a fresh 256-capacity queue): the client
is added to the registry and the welcome message is sent with a
non-blocking attempt; if that send fails the queue is closed and the client
deleted (defensively — it cannot fail on a fresh queue). -/
def hubRegister (s : HubState) (c : Nat) : HubState :=
  let clients1 := if c ∈ s.clients then s.clients else s.clients ++ [c]
  let chans1 := updateChan s.chan c freshChan
  match trySend (chans1 c) welcomeMsg with
  | some ch => { clients := clients1, chan := updateChan chans1 c ch }
  | none =>
    { clients := clients1.erase c, chan := updateChan chans1 c (closeChan (chans1 c)) }

/-- The unregister case of `Hub.run` (lines 1064-1071): only if the client
is still in the registry is it removed and its queue closed; otherwise
nothing happens. -/
def hubUnregister (s : HubState) (c : Nat) : HubState :=
  if c ∈ s.clients then
    { clients := s.clients.erase c, chan := updateChan s.chan c (closeChan (s.chan c)) }
  else s

/-- One iteration of the broadcast loop body (lines 1075-1083) for client
`c`: a non-blocking send of the message; on failure the client's queue is
closed and the client deleted from the registry. -/
def broadcastStep (s : HubState) (m : Msg) (c : Nat) : HubState :=
  match trySend (s.chan c) m with
  | some ch => { clients := s.clients, chan := updateChan s.chan c ch }
  | none =>
    { clients := s.clients.erase c, chan := updateChan s.chan c (closeChan (s.chan c)) }

/-- The broadcast case of `Hub.run` (lines 1073-1084): the loop body applied
to every client of the current registry snapshot (only the client being
processed is ever deleted mid-loop, so iterating the snapshot is faithful
to Go's map range). -/
def hubBroadcast (s : HubState) (m : Msg) : HubState :=
  s.clients.foldl (fun acc c => broadcastStep acc m c) s

/-- The three registry commands consumed by the hub goroutine's select
loop. -/
inductive HubCmd where
  | registerCmd (c : Nat)
  | unregisterCmd (c : Nat)
  | broadcastCmd (m : Msg)

/-- One command processed to completion by `Hub.run`. -/
def hubStep (s : HubState) : HubCmd → HubState
  | HubCmd.registerCmd c => hubRegister s c
  | HubCmd.unregisterCmd c => hubUnregister s c
  | HubCmd.broadcastCmd m => hubBroadcast s m

/-- The state made by `newHub` (lines 1031-1038): an empty registry. -/
def hubInit : HubState := { clients := [], chan := fun _ => freshChan }

/-- A sequence of broadcasts in order. -/
def broadcastAll (s : HubState) (msgs : List Msg) : HubState :=
  msgs.foldl hubBroadcast s

/-- The transport-level writes of a session's writer: a text frame carrying
one or more newline-joined messages, or the close frame. -/
inductive WSWrite where
  | frame (msgs : List Msg)
  | closeFrame
deriving DecidableEq

/-- Model of `Client.writePump` (lines 1128-1152) consuming its queue after
the hub has closed it, on an error-free transport: a Go receive from a
closed buffered channel yields the buffered values first and reports
closure only once the buffer is empty, at which point the writer emits the
close frame and returns. On receiving a message the writer opens one frame,
writes it, then drains `len(c.send)` further queued messages into the same
frame. The keepalive ticker case only interleaves ping frames and is not
modelled. -/
def writePumpClosed (buf : List Msg) : List WSWrite :=
  match buf with
  | [] => [WSWrite.closeFrame]
  | m :: rest =>
    WSWrite.frame (m :: rest.take rest.length) :: writePumpClosed (rest.drop rest.length)
termination_by buf.length
decreasing_by
  simp only [List.length_cons, List.length_drop]
  omega

/-- The messages a write sequence carries, in order, ignoring control
frames. -/
def deliveredMsgs (ws : List WSWrite) : List Msg :=
  ws.foldr
    (fun w acc =>
      match w with
      | WSWrite.frame ms => ms ++ acc
      | WSWrite.closeFrame => acc) []

/-- Registry well-formedness maintained by `Hub.run`: the registry is a set
(no duplicate members) and every registered client's queue is open. -/
def WFHub (s : HubState) : Prop :=
  s.clients.Nodup ∧ ∀ c ∈ s.clients, (s.chan c).closed = false

/-!
Client id generation (services/mcp-server/main.go lines 1164-1167):
the current time formatted with the Go layout string for a full
seconds-precision date-time, an underscore, and the decimal rendering of
the nanosecond count modulo 100000. Go formats in the process-local zone;
the model uses UTC — a fixed whole-second zone offset shifts every time by
the same amount and changes neither which instants share a calendar second
nor the distinctness structure of the ids. The two `time.Now()` calls in
the function are nanoseconds apart and are modelled as one instant.
-/

/-- Gregorian calendar date (year, month, day) for a day count since
1970-01-01, by the standard era-based civil-from-days conversion. -/
def civilFromDays (days : Nat) : Nat × Nat × Nat :=
  let z := days + 719468
  let era := z / 146097
  let doe := z % 146097
  let yoe := (doe - doe / 1460 + doe / 36524 - doe / 146096) / 365
  let y := yoe + era * 400
  let doy := doe - (365 * yoe + yoe / 4 - yoe / 100)
  let mp := (5 * doy + 2) / 153
  let d := doy - (153 * mp + 2) / 5 + 1
  let m := if mp < 10 then mp + 3 else mp - 9
  (if m ≤ 2 then y + 1 else y, m, d)

/-- Zero-pad to two digits, as the Go layout does for month, day, hour,
minute and second. -/
def pad2 (n : Nat) : String :=
  if n < 10 then "0" ++ toString n else toString n

/-- Zero-pad to four digits, as the Go layout does for the year. -/
def pad4 (n : Nat) : String :=
  if n < 10 then "000" ++ toString n
  else if n < 100 then "00" ++ toString n
  else if n < 1000 then "0" ++ toString n
  else toString n

/-- Seconds since the epoch rendered with the Go seconds-precision
date-time layout: year, month, day, hour, minute, second, each
zero-padded. -/
def formatDateTimeSeconds (secs : Nat) : String :=
  let days := secs / 86400
  let rem := secs % 86400
  let ymd := civilFromDays days
  pad4 ymd.1 ++ pad2 ymd.2.1 ++ pad2 ymd.2.2 ++
    pad2 (rem / 3600) ++ pad2 ((rem % 3600) / 60) ++ pad2 (rem % 60)

/-- Model of `generateClientID` (main.go lines 1164-1167) at Unix-nanosecond
time `now`: the seconds-precision date-time string, an underscore, and the
decimal rendering of `now` modulo 100000 (the nanosecond count modulo
100 microseconds). -/
def generateClientID (now : Nat) : String :=
  formatDateTimeSeconds (now / 1000000000) ++ "_" ++ toString (now % 100000)
/-- Left cancellation for string append, via the underlying character
lists. -/
theorem string_append_left_cancel (s a b : String) (h : s ++ a = s ++ b) : a = b := by
  have hd : (s ++ a).data = (s ++ b).data := by rw [h]
  simp [String.data_append] at hd
  cases a
  cases b
  simp_all

/-- C1: IsAllowed returns true iff the count of timestamps remaining after
pruning — taken before the current request's timestamp is added — is
strictly below the configured limit; and with a limit of 3 per 1-second
window, three calls within 100ms return true, a fourth immediate call
returns false, and a call after a full window of inactivity returns true
again. -/
theorem isAllowed_sliding_window :
    (∀ (rl : RateLimiter) (store : String → List Int) (userID : String) (now : Int),
      (isAllowed rl store userID now false).1 = Except.ok true ↔
        ((pruneCountAdd rl (store (rateKey userID)) now).1 : Int) < rl.limit) ∧
    runCalls ⟨3, 1000000000⟩ (fun _ => []) "user"
      [0, 10000000, 20000000, 30000000, 2030000000] =
      [true, true, true, false, true] := by
  constructor
  · intro rl store userID now
    simp [isAllowed]
  · decide

/-- C5 counterexample: a timestamp lying exactly at now − window is inside
the closed interval [now − window, now], so per the claim it must be
retained and counted; the code's ZRemRangeByScore range [0, windowStart] is
inclusive at the right end, so that timestamp is pruned and the count is 0,
not 1. -/
theorem prune_boundary_counterexample :
    prunedTimestamps ⟨3, 1000000000⟩ [1000000000] 2000000000 = [] ∧
    (pruneCountAdd ⟨3, 1000000000⟩ [1000000000] 2000000000).1 = 0 ∧
    (1000000000 : Int) = 2000000000 - (⟨3, 1000000000⟩ : RateLimiter).window := by
  decide

/-- C5 amended: for nonnegative recorded timestamps, the timestamps that
remain and are counted after pruning are exactly those in the half-open
interval (now − window, now] — entries at or before now − window are
pruned, strictly newer entries are retained — and counting happens on
exactly the pruned list, before the current timestamp is added. -/
theorem pruned_window_halfopen (rl : RateLimiter) (ts : List Int) (now : Int)
    (hpos : ∀ t ∈ ts, 0 ≤ t) :
    prunedTimestamps rl ts now = ts.filter (fun t => decide (windowStart rl now < t)) ∧
    (pruneCountAdd rl ts now).1 =
      (ts.filter (fun t => decide (windowStart rl now < t))).length ∧
    (∀ t ∈ ts, (t ∈ prunedTimestamps rl ts now ↔ windowStart rl now < t)) ∧
    ((∀ t ∈ ts, t ≤ now) →
      ∀ t ∈ ts, (t ∈ prunedTimestamps rl ts now ↔ (windowStart rl now < t ∧ t ≤ now))) := by
  have hfc : prunedTimestamps rl ts now =
      ts.filter (fun t => decide (windowStart rl now < t)) := by
    unfold prunedTimestamps
    apply List.filter_congr
    intro t ht
    have h0 : decide (0 ≤ t) = true := decide_eq_true (hpos t ht)
    simp [h0, ← decide_not, Int.not_le]
  have hmem : ∀ t ∈ ts, (t ∈ prunedTimestamps rl ts now ↔ windowStart rl now < t) := by
    intro t ht
    unfold prunedTimestamps
    simp [List.mem_filter, ht, hpos t ht, Int.not_le]
  refine ⟨hfc, ?_, hmem, ?_⟩
  · unfold pruneCountAdd
    rw [hfc]
  · intro hle t ht
    rw [hmem t ht]
    exact ⟨fun h => ⟨h, hle t ht⟩, fun h => h.1⟩

/-- Witness for the amended C5 statement at a concrete input: window 3,
now 6, recorded timestamps 5 and 1; only 5 lies in (3, 6] and survives. -/
theorem pruned_window_halfopen_witness :
    prunedTimestamps ⟨2, 3⟩ [5, 1] 6 = [5] ∧
    (pruneCountAdd ⟨2, 3⟩ [5, 1] 6).1 = 1 ∧
    ((5 : Int) ∈ prunedTimestamps ⟨2, 3⟩ [5, 1] 6 ↔ windowStart ⟨2, 3⟩ 6 < 5) := by
  have h := pruned_window_halfopen ⟨2, 3⟩ [5, 1] 6 (by decide)
  refine ⟨?_, ?_, h.2.2.1 5 (by decide)⟩
  · rw [h.1]; decide
  · rw [h.2.1]; decide

/-- C6: the middleware distinguishes three mutually exclusive outcomes: on a
store failure it reports a distinct error (HTTP 500) and never invokes the
wrapped handler; on an over-limit decision it rejects with HTTP 429 and a
Retry-After hint of 60 seconds, equal to the constructed limiter's fixed
one-minute window, and never invokes the handler; only an under-limit
decision without store failure invokes the handler. -/
theorem middleware_distinguishes_outcomes (env : String) (store : String → List Int)
    (hdr addr : String) (now : Int) :
    (middleware (newRateLimiter env) store hdr addr now true = MWResult.storeFailure 500 ∧
     middleware (newRateLimiter env) store hdr addr now true ≠ MWResult.proceed ∧
     ∀ st ra, middleware (newRateLimiter env) store hdr addr now true ≠
       MWResult.rateLimited st ra) ∧
    (¬(((pruneCountAdd (newRateLimiter env)
          (store (rateKey (middlewareUserID hdr addr))) now).1 : Int) <
        (newRateLimiter env).limit) →
      middleware (newRateLimiter env) store hdr addr now false =
        MWResult.rateLimited 429 "60" ∧
      middleware (newRateLimiter env) store hdr addr now false ≠ MWResult.proceed ∧
      (newRateLimiter env).window = 60 * 1000000000) ∧
    ((((pruneCountAdd (newRateLimiter env)
          (store (rateKey (middlewareUserID hdr addr))) now).1 : Int) <
        (newRateLimiter env).limit) →
      middleware (newRateLimiter env) store hdr addr now false = MWResult.proceed) := by
  refine ⟨⟨?_, ?_, ?_⟩, fun h => ⟨?_, ?_, ?_⟩, fun h => ?_⟩
  · simp [middleware, isAllowed]
  · simp [middleware, isAllowed]
  · intro st ra; simp [middleware, isAllowed]
  · simp [middleware, isAllowed, h]
  · simp [middleware, isAllowed, h]
  · simp [newRateLimiter]
  · simp [middleware, isAllowed, h]

/-- Witness for C6: with limit 2 and two in-window timestamps recorded, a
store failure yields the 500 outcome, an over-limit check yields the 429
outcome with the 60-second hint, and an empty record proceeds. -/
theorem middleware_distinguishes_outcomes_witness :
    middleware (newRateLimiter "2") (fun _ => [0, 1]) "u" "a" 5 true =
      MWResult.storeFailure 500 ∧
    middleware (newRateLimiter "2") (fun _ => [0, 1]) "u" "a" 5 false =
      MWResult.rateLimited 429 "60" ∧
    middleware (newRateLimiter "2") (fun _ => []) "u" "a" 5 false = MWResult.proceed := by
  refine ⟨(middleware_distinguishes_outcomes "2" (fun _ => [0, 1]) "u" "a" 5).1.1,
    ((middleware_distinguishes_outcomes "2" (fun _ => [0, 1]) "u" "a" 5).2.1 (by decide)).1,
    (middleware_distinguishes_outcomes "2" (fun _ => []) "u" "a" 5).2.2 (by decide)⟩

/-- C7 counterexample: two requests that both lack a caller identity
(empty X-User-ID header) but arrive from different remote addresses are
keyed by their distinct remote addresses, not by one shared anonymous
identity: their rate-limit keys differ from each other and from the
anonymous key, and the first request's admission leaves the second
request's window record untouched. -/
theorem middleware_shared_counter_counterexample :
    middlewareUserID "" "10.0.0.1:5000" ≠ middlewareUserID "" "10.0.0.2:6000" ∧
    rateKey (middlewareUserID "" "10.0.0.1:5000") ≠
      rateKey (middlewareUserID "" "10.0.0.2:6000") ∧
    rateKey (middlewareUserID "" "10.0.0.1:5000") ≠ rateKey "" ∧
    ((isAllowed (newRateLimiter "") (fun _ => [])
        (middlewareUserID "" "10.0.0.1:5000") 7 false).2
      (rateKey (middlewareUserID "" "10.0.0.2:6000")) = []) ∧
    ((isAllowed (newRateLimiter "") (fun _ => [])
        (middlewareUserID "" "10.0.0.1:5000") 7 false).2
      (rateKey (middlewareUserID "" "10.0.0.1:5000")) = [7]) := by
  decide

/-- C7 amended: when the X-User-ID header is absent the middleware uses the
request's remote address as the rate-limit identity, so unauthenticated
callers share a window record exactly when they share a remote address;
the single anonymous identity applies only to an empty identity string
reaching IsAllowed directly (i.e. only when the remote address is itself
empty). -/
theorem middleware_identity_fallback (hdr addr a₁ a₂ : String) :
    (hdr ≠ "" → middlewareUserID hdr addr = hdr) ∧
    (hdr = "" → middlewareUserID hdr addr = addr) ∧
    (addr ≠ "" → rateKey (middlewareUserID "" addr) = "rate_limit:" ++ addr) ∧
    (middlewareUserID "" "" = "" ∧ rateKey "" = "rate_limit:" ++ "anonymous") ∧
    (a₁ ≠ "" → a₂ ≠ "" →
      (rateKey (middlewareUserID "" a₁) = rateKey (middlewareUserID "" a₂) ↔ a₁ = a₂)) := by
  refine ⟨fun h => by simp [middlewareUserID, h], fun h => by simp [middlewareUserID, h],
    fun h => by simp [rateKey, middlewareUserID, normalizeUserID, h], ⟨rfl, rfl⟩,
    fun h₁ h₂ => ⟨fun h => ?_, fun h => by rw [h]⟩⟩
  simp only [rateKey, middlewareUserID, normalizeUserID, if_neg h₁, if_neg h₂,
    reduceIte] at h
  exact string_append_left_cancel _ _ _ h

/-- Witness for the amended C7 statement at a concrete address. -/
theorem middleware_identity_fallback_witness :
    middlewareUserID "" "10.0.0.1:5000" = "10.0.0.1:5000" ∧
    rateKey (middlewareUserID "" "10.0.0.1:5000") = "rate_limit:" ++ "10.0.0.1:5000" ∧
    (rateKey (middlewareUserID "" "10.0.0.1:5000") =
        rateKey (middlewareUserID "" "10.0.0.1:5000") ↔
      ("10.0.0.1:5000" : String) = "10.0.0.1:5000") := by
  have h := middleware_identity_fallback "" "10.0.0.1:5000" "10.0.0.1:5000" "10.0.0.1:5000"
  exact ⟨h.2.1 rfl, h.2.2.1 (by decide), h.2.2.2.2 (by decide) (by decide)⟩

/-- C8 counterexample: constructing the limiter with RATE_LIMIT set to the
invalid values 0 and -5 succeeds and yields a working limiter (construction
has no failure path), and the fault first manifests at request time, where
a limit of 0 denies even the very first request. -/
theorem construction_no_failfast_counterexample :
    newRateLimiter "0" = ⟨0, 60000000000⟩ ∧
    newRateLimiter "-5" = ⟨-5, 60000000000⟩ ∧
    (isAllowed (newRateLimiter "0") (fun _ => []) "u" 0 false).1 = Except.ok false := by
  refine ⟨by decide, by decide, ?_⟩
  simp [isAllowed, newRateLimiter, atoi, parseNatDigits, digitVal, pruneCountAdd,
    prunedTimestamps]

/-- C8 amended: construction never fails and performs no validation: an
unset RATE_LIMIT gives the default limit 60, a value Atoi cannot parse
silently falls back to 60, any parseable value — including zero and
negative values — is accepted as the limit, and the window is fixed at one
minute; a non-positive limit manifests only at request time, where every
admission check is denied. -/
theorem newRateLimiter_never_fails (s : String) :
    ((s = "" → (newRateLimiter s).limit = 60) ∧
     (∀ n, atoi s = some n → (newRateLimiter s).limit = n) ∧
     (s ≠ "" → atoi s = none → (newRateLimiter s).limit = 60) ∧
     (newRateLimiter s).window = 60000000000) ∧
    (∀ (store : String → List Int) (userID : String) (now : Int),
      (newRateLimiter s).limit ≤ 0 →
      (isAllowed (newRateLimiter s) store userID now false).1 = Except.ok false) := by
  refine ⟨⟨fun h => by simp [newRateLimiter, h], fun n hn => ?_, fun hs hn => by
    simp [newRateLimiter, hs, hn], by simp [newRateLimiter]⟩, fun store uid now hlim => ?_⟩
  · by_cases hs : s = ""
    · subst hs
      simp [atoi, parseNatDigits] at hn
    · simp [newRateLimiter, hs, hn]
  · have hnn : (0 : Int) ≤ ((pruneCountAdd (newRateLimiter s)
        (store (rateKey uid)) now).1 : Int) := Int.natCast_nonneg _
    simp only [isAllowed]
    simp only [Bool.false_eq_true, if_false]
    congr 1
    apply decide_eq_false
    omega

/-- Witness for the amended C8 statement: RATE_LIMIT set to 0 is accepted
as limit 0 and the first request is denied. -/
theorem newRateLimiter_never_fails_witness :
    (newRateLimiter "0").limit = 0 ∧
    (isAllowed (newRateLimiter "0") (fun _ => []) "u" 5 false).1 = Except.ok false := by
  have h := newRateLimiter_never_fails "0"
  exact ⟨h.1.2.1 0 (by decide), h.2 (fun _ => []) "u" 5 (by decide)⟩
theorem updateChan_self (f : Nat → Chan) (k : Nat) (v : Chan) : updateChan f k v k = v := by
  simp [updateChan]

theorem updateChan_ne (f : Nat → Chan) (k : Nat) (v : Chan) (q : Nat) (h : q ≠ k) :
    updateChan f k v q = f q := by
  simp [updateChan, h]

theorem broadcastStep_chan_ne (a : HubState) (m : Msg) (c d : Nat) (h : d ≠ c) :
    (broadcastStep a m c).chan d = a.chan d := by
  unfold broadcastStep
  split <;> simp [updateChan, h]

theorem broadcastStep_mem_ne (a : HubState) (m : Msg) (c d : Nat) (h : d ≠ c) :
    (d ∈ (broadcastStep a m c).clients ↔ d ∈ a.clients) := by
  unfold broadcastStep
  split <;> simp [List.mem_erase_of_ne h]

theorem broadcastStep_nodup (a : HubState) (m : Msg) (c : Nat) (h : a.clients.Nodup) :
    (broadcastStep a m c).clients.Nodup := by
  unfold broadcastStep
  split
  · exact h
  · exact h.erase c

theorem broadcastStep_free (a : HubState) (m : Msg) (c : Nat)
    (h : (a.chan c).buf.length < (a.chan c).cap) :
    broadcastStep a m c =
      { clients := a.clients,
        chan := updateChan a.chan c { a.chan c with buf := (a.chan c).buf ++ [m] } } := by
  unfold broadcastStep trySend
  simp [h]

theorem broadcastStep_full (a : HubState) (m : Msg) (c : Nat)
    (h : ¬(a.chan c).buf.length < (a.chan c).cap) :
    broadcastStep a m c =
      { clients := a.clients.erase c,
        chan := updateChan a.chan c (closeChan (a.chan c)) } := by
  unfold broadcastStep trySend
  simp [h]

theorem foldl_broadcast_notin (m : Msg) (L : List Nat) :
    ∀ (a : HubState) (c : Nat), c ∉ L →
      ((L.foldl (fun acc x => broadcastStep acc m x) a).chan c = a.chan c ∧
       (c ∈ (L.foldl (fun acc x => broadcastStep acc m x) a).clients ↔ c ∈ a.clients)) := by
  induction L with
  | nil => intro a c _; exact ⟨rfl, Iff.rfl⟩
  | cons x rest ih =>
    intro a c h
    have hxc : c ≠ x := fun hh => h (hh ▸ List.mem_cons_self x rest)
    have hrest : c ∉ rest := fun hh => h (List.mem_cons_of_mem _ hh)
    simp only [List.foldl_cons]
    obtain ⟨h1, h2⟩ := ih (broadcastStep a m x) c hrest
    exact ⟨h1.trans (broadcastStep_chan_ne a m x c hxc),
      h2.trans (broadcastStep_mem_ne a m x c hxc)⟩

theorem foldl_broadcast_nodup (m : Msg) (L : List Nat) :
    ∀ (a : HubState), a.clients.Nodup →
      (L.foldl (fun acc x => broadcastStep acc m x) a).clients.Nodup := by
  induction L with
  | nil => intro a h; exact h
  | cons x rest ih =>
    intro a h
    simp only [List.foldl_cons]
    exact ih _ (broadcastStep_nodup a m x h)

theorem foldl_broadcast_mem_free (m : Msg) (L : List Nat) :
    ∀ (a : HubState) (c : Nat), L.Nodup → c ∈ L →
      (a.chan c).buf.length < (a.chan c).cap →
      ((L.foldl (fun acc x => broadcastStep acc m x) a).chan c =
          { a.chan c with buf := (a.chan c).buf ++ [m] } ∧
       (c ∈ (L.foldl (fun acc x => broadcastStep acc m x) a).clients ↔ c ∈ a.clients)) := by
  induction L with
  | nil => intro a c _ hmem; exact absurd hmem (List.not_mem_nil c)
  | cons x rest ih =>
    intro a c hnd hmem hfree
    simp only [List.foldl_cons]
    rcases List.mem_cons.1 hmem with hcx | hcr
    · subst hcx
      have hnotin : c ∉ rest := (List.nodup_cons.1 hnd).1
      rw [broadcastStep_free a m c hfree]
      obtain ⟨h1, h2⟩ := foldl_broadcast_notin m rest _ c hnotin
      refine ⟨h1.trans ?_, h2.trans Iff.rfl⟩
      exact updateChan_self _ _ _
    · have hxc : c ≠ x := by
        intro hh
        exact (List.nodup_cons.1 hnd).1 (hh ▸ hcr)
      have hch : (broadcastStep a m x).chan c = a.chan c := broadcastStep_chan_ne a m x c hxc
      obtain ⟨h1, h2⟩ := ih (broadcastStep a m x) c (List.nodup_cons.1 hnd).2 hcr
        (by rw [hch]; exact hfree)
      refine ⟨by rw [h1, hch], h2.trans (broadcastStep_mem_ne a m x c hxc)⟩

theorem foldl_broadcast_mem_full (m : Msg) (L : List Nat) :
    ∀ (a : HubState) (c : Nat), L.Nodup → a.clients.Nodup → c ∈ L →
      ¬(a.chan c).buf.length < (a.chan c).cap →
      ((L.foldl (fun acc x => broadcastStep acc m x) a).chan c = closeChan (a.chan c) ∧
       c ∉ (L.foldl (fun acc x => broadcastStep acc m x) a).clients) := by
  induction L with
  | nil => intro a c _ _ hmem; exact absurd hmem (List.not_mem_nil c)
  | cons x rest ih =>
    intro a c hnd hand hmem hfull
    simp only [List.foldl_cons]
    rcases List.mem_cons.1 hmem with hcx | hcr
    · subst hcx
      have hnotin : c ∉ rest := (List.nodup_cons.1 hnd).1
      rw [broadcastStep_full a m c hfull]
      obtain ⟨h1, h2⟩ := foldl_broadcast_notin m rest _ c hnotin
      refine ⟨h1.trans (updateChan_self _ _ _), fun hin => ?_⟩
      have : c ∈ a.clients.erase c := h2.1 hin
      rw [hand.mem_erase_iff] at this
      exact this.1 rfl
    · have hxc : c ≠ x := by
        intro hh
        exact (List.nodup_cons.1 hnd).1 (hh ▸ hcr)
      have hch : (broadcastStep a m x).chan c = a.chan c := broadcastStep_chan_ne a m x c hxc
      obtain ⟨h1, h2⟩ := ih (broadcastStep a m x) c (List.nodup_cons.1 hnd).2
        (broadcastStep_nodup a m x hand) hcr (by rw [hch]; exact hfull)
      exact ⟨by rw [h1, hch], h2⟩

theorem hubBroadcast_free (s : HubState) (m : Msg) (c : Nat) (hnd : s.clients.Nodup)
    (hc : c ∈ s.clients) (hfree : (s.chan c).buf.length < (s.chan c).cap) :
    (hubBroadcast s m).chan c = { s.chan c with buf := (s.chan c).buf ++ [m] } ∧
    c ∈ (hubBroadcast s m).clients := by
  obtain ⟨h1, h2⟩ := foldl_broadcast_mem_free m s.clients s c hnd hc hfree
  exact ⟨h1, h2.2 hc⟩

theorem hubBroadcast_full (s : HubState) (m : Msg) (c : Nat) (hnd : s.clients.Nodup)
    (hc : c ∈ s.clients) (hfull : ¬(s.chan c).buf.length < (s.chan c).cap) :
    (hubBroadcast s m).chan c = closeChan (s.chan c) ∧
    c ∉ (hubBroadcast s m).clients :=
  foldl_broadcast_mem_full m s.clients s c hnd hnd hc hfull

theorem hubBroadcast_notin (s : HubState) (m : Msg) (c : Nat) (hc : c ∉ s.clients) :
    (hubBroadcast s m).chan c = s.chan c ∧ c ∉ (hubBroadcast s m).clients := by
  obtain ⟨h1, h2⟩ := foldl_broadcast_notin m s.clients s c hc
  exact ⟨h1, fun hin => hc (h2.1 hin)⟩

theorem hubBroadcast_nodup (s : HubState) (m : Msg) (hnd : s.clients.Nodup) :
    (hubBroadcast s m).clients.Nodup :=
  foldl_broadcast_nodup m s.clients s hnd

theorem broadcastAll_free (msgs : List Msg) :
    ∀ (s : HubState) (c : Nat), s.clients.Nodup → c ∈ s.clients →
      (s.chan c).buf.length + msgs.length ≤ (s.chan c).cap →
      (c ∈ (broadcastAll s msgs).clients ∧
       (broadcastAll s msgs).chan c = { s.chan c with buf := (s.chan c).buf ++ msgs }) := by
  induction msgs with
  | nil =>
    intro s c _ hc _
    exact ⟨hc, by simp [broadcastAll]⟩
  | cons m rest ih =>
    intro s c hnd hc hcap
    have hfree : (s.chan c).buf.length < (s.chan c).cap := by
      simp only [List.length_cons] at hcap
      omega
    obtain ⟨hch, hmem⟩ := hubBroadcast_free s m c hnd hc hfree
    have hnd1 : (hubBroadcast s m).clients.Nodup := hubBroadcast_nodup s m hnd
    have hcap1 : ((hubBroadcast s m).chan c).buf.length + rest.length ≤
        ((hubBroadcast s m).chan c).cap := by
      rw [hch]
      simp only [List.length_append, List.length_singleton, List.length_cons,
        List.length_nil] at hcap ⊢
      omega
    obtain ⟨hmem2, hch2⟩ := ih (hubBroadcast s m) c hnd1 hmem hcap1
    refine ⟨by simpa [broadcastAll] using hmem2, ?_⟩
    have : (broadcastAll s (m :: rest)) = broadcastAll (hubBroadcast s m) rest := by
      simp [broadcastAll]
    rw [this, hch2, hch]
    simp

theorem hubRegister_eq (s : HubState) (c : Nat) :
    hubRegister s c =
      { clients := if c ∈ s.clients then s.clients else s.clients ++ [c],
        chan := updateChan s.chan c { buf := [welcomeMsg], cap := 256, closed := false } } := by
  unfold hubRegister
  have h : trySend (updateChan s.chan c freshChan c) welcomeMsg =
      some { buf := [welcomeMsg], cap := 256, closed := false } := by
    simp [updateChan, freshChan, trySend]
  dsimp only
  rw [h]
  dsimp only
  congr 1
  funext q
  simp only [updateChan]
  split <;> rfl

theorem WFHub_init : WFHub hubInit := by
  constructor
  · exact List.nodup_nil
  · intro c hc
    exact absurd hc (List.not_mem_nil c)

theorem WFHub_register (s : HubState) (c : Nat) (h : WFHub s) : WFHub (hubRegister s c) := by
  obtain ⟨hnd, hopen⟩ := h
  rw [hubRegister_eq]
  constructor
  · by_cases hc : c ∈ s.clients
    · simpa [hc] using hnd
    · simp only [hc, if_false]
      simp [List.nodup_append, hnd, hc]
  · intro d hd
    by_cases hdc : d = c
    · subst hdc
      simp [updateChan]
    · simp only [updateChan, if_neg hdc]
      apply hopen
      by_cases hc : c ∈ s.clients
      · simpa [hc] using hd
      · simp only [hc, if_false] at hd
        rcases List.mem_append.1 hd with h1 | h1
        · exact h1
        · exact absurd (List.mem_singleton.1 h1) hdc

theorem WFHub_unregister (s : HubState) (c : Nat) (h : WFHub s) :
    WFHub (hubUnregister s c) := by
  obtain ⟨hnd, hopen⟩ := h
  unfold hubUnregister
  split
  · constructor
    · exact hnd.erase c
    · intro d hd
      have hdm := hnd.mem_erase_iff.1 hd
      simp only [updateChan, if_neg hdm.1]
      exact hopen d hdm.2
  · exact ⟨hnd, hopen⟩

theorem WFHub_broadcastStep (a : HubState) (m : Msg) (c : Nat) (h : WFHub a) :
    WFHub (broadcastStep a m c) := by
  obtain ⟨hnd, hopen⟩ := h
  by_cases hfree : (a.chan c).buf.length < (a.chan c).cap
  · rw [broadcastStep_free a m c hfree]
    refine ⟨hnd, fun d hd => ?_⟩
    by_cases hdc : d = c
    · subst hdc
      simp only [updateChan, if_pos rfl]
      exact hopen d hd
    · simp only [updateChan, if_neg hdc]
      exact hopen d hd
  · rw [broadcastStep_full a m c hfree]
    refine ⟨hnd.erase c, fun d hd => ?_⟩
    have hdm := hnd.mem_erase_iff.1 hd
    simp only [updateChan, if_neg hdm.1]
    exact hopen d hdm.2

theorem WFHub_foldl_broadcast (m : Msg) (L : List Nat) :
    ∀ (a : HubState), WFHub a → WFHub (L.foldl (fun acc x => broadcastStep acc m x) a) := by
  induction L with
  | nil => intro a h; exact h
  | cons x rest ih =>
    intro a h
    simp only [List.foldl_cons]
    exact ih _ (WFHub_broadcastStep a m x h)

theorem WFHub_broadcast (s : HubState) (m : Msg) (h : WFHub s) :
    WFHub (hubBroadcast s m) :=
  WFHub_foldl_broadcast m s.clients s h

theorem WFHub_step (s : HubState) (cmd : HubCmd) (h : WFHub s) : WFHub (hubStep s cmd) := by
  cases cmd with
  | registerCmd c => exact WFHub_register s c h
  | unregisterCmd c => exact WFHub_unregister s c h
  | broadcastCmd m => exact WFHub_broadcast s m h

theorem WFHub_trace (cmds : List HubCmd) : WFHub (cmds.foldl hubStep hubInit) := by
  have h : ∀ (s : HubState), WFHub s → WFHub (cmds.foldl hubStep s) := by
    induction cmds with
    | nil => intro s hs; exact hs
    | cons cmd rest ih =>
      intro s hs
      simp only [List.foldl_cons]
      exact ih _ (WFHub_step s cmd hs)
  exact h hubInit WFHub_init

theorem writePumpClosed_eq (buf : List Msg) :
    writePumpClosed buf =
      if buf.isEmpty then [WSWrite.closeFrame]
      else [WSWrite.frame buf, WSWrite.closeFrame] := by
  cases buf with
  | nil => simp [writePumpClosed]
  | cons m rest => simp [writePumpClosed, List.take_length, List.drop_length]

theorem writePump_delivers (buf : List Msg) :
    deliveredMsgs (writePumpClosed buf) = buf ∧
    (writePumpClosed buf).getLast? = some WSWrite.closeFrame := by
  rw [writePumpClosed_eq]
  cases buf <;> simp [deliveredMsgs]

/-- C2: broadcasting over the current registry appends the message to the
queue of every registered session with free space (and M successive
broadcasts land in order on each surviving session's queue), while every
registered session whose queue is full at that moment has its queue closed
and is removed from the registry by the time the broadcast completes; the
operation is a total function of the state — it cannot block on a session
or fail as a whole. -/
theorem hub_broadcast_isolation (s : HubState) (m : Msg) (msgs : List Msg)
    (hnd : s.clients.Nodup) :
    (∀ c ∈ s.clients, (s.chan c).buf.length < (s.chan c).cap →
      c ∈ (hubBroadcast s m).clients ∧
      ((hubBroadcast s m).chan c).buf = (s.chan c).buf ++ [m] ∧
      ((hubBroadcast s m).chan c).closed = (s.chan c).closed) ∧
    (∀ c ∈ s.clients, ¬(s.chan c).buf.length < (s.chan c).cap →
      c ∉ (hubBroadcast s m).clients ∧
      ((hubBroadcast s m).chan c).closed = true ∧
      ((hubBroadcast s m).chan c).buf = (s.chan c).buf) ∧
    (∀ c ∈ s.clients, (s.chan c).buf.length + msgs.length ≤ (s.chan c).cap →
      c ∈ (broadcastAll s msgs).clients ∧
      ((broadcastAll s msgs).chan c).buf = (s.chan c).buf ++ msgs) := by
  refine ⟨fun c hc hfree => ?_, fun c hc hfull => ?_, fun c hc hcap => ?_⟩
  · obtain ⟨h1, h2⟩ := hubBroadcast_free s m c hnd hc hfree
    exact ⟨h2, by rw [h1], by rw [h1]⟩
  · obtain ⟨h1, h2⟩ := hubBroadcast_full s m c hnd hc hfull
    exact ⟨h2, by rw [h1]; rfl, by rw [h1]; rfl⟩
  · obtain ⟨h1, h2⟩ := broadcastAll_free msgs s c hnd hc hcap
    exact ⟨h1, by rw [h2]⟩

/-- Witness for C2: registry of sessions 1 (room for 2) and 2 (full at
capacity 1); broadcasting delivers to 1, evicts and closes 2, and the
two-message broadcast sequence arrives in order on session 1. -/
theorem hub_broadcast_isolation_witness :
    (1 ∈ (hubBroadcast
        ⟨[1, 2], fun q => if q = 1 then ⟨[], 2, false⟩ else ⟨["x"], 1, false⟩⟩ "a").clients ∧
     ((hubBroadcast
        ⟨[1, 2], fun q => if q = 1 then ⟨[], 2, false⟩ else ⟨["x"], 1, false⟩⟩ "a").chan 1).buf =
       [] ++ ["a"]) ∧
    (2 ∉ (hubBroadcast
        ⟨[1, 2], fun q => if q = 1 then ⟨[], 2, false⟩ else ⟨["x"], 1, false⟩⟩ "a").clients ∧
     ((hubBroadcast
        ⟨[1, 2], fun q => if q = 1 then ⟨[], 2, false⟩ else ⟨["x"], 1, false⟩⟩ "a").chan 2).closed =
       true) ∧
    ((broadcastAll
        ⟨[1, 2], fun q => if q = 1 then ⟨[], 2, false⟩ else ⟨["x"], 1, false⟩⟩
        ["a", "b"]).chan 1).buf = [] ++ ["a", "b"] := by
  have h := hub_broadcast_isolation
    ⟨[1, 2], fun q => if q = 1 then ⟨[], 2, false⟩ else ⟨["x"], 1, false⟩⟩ "a" ["a", "b"]
    (by decide)
  refine ⟨⟨(h.1 1 (by decide) (by decide)).1, (h.1 1 (by decide) (by decide)).2.1⟩,
    ⟨(h.2.1 2 (by decide) (by decide)).1, (h.2.1 2 (by decide) (by decide)).2.1⟩,
    (h.2.2 1 (by decide) (by decide)).2⟩

/-- C3: the hub processes register, unregister and broadcast commands one
at a time through a single sequential owner, so in every state reachable by
a command sequence from the initial hub the registry is a duplicate-free
set whose members all have open queues, and a broadcast enumeration
observes each session atomically: a session outside the registry is
untouched (queue unchanged, still absent), and a session in the registry
either stays fully registered with the message appended and its queue open,
or is fully removed with its queue closed — never a partial state. -/
theorem hub_run_serialized_consistency (cmds : List HubCmd) :
    ((cmds.foldl hubStep hubInit).clients.Nodup ∧
     ∀ c ∈ (cmds.foldl hubStep hubInit).clients,
       ((cmds.foldl hubStep hubInit).chan c).closed = false) ∧
    (∀ (m : Msg) (c : Nat), c ∉ (cmds.foldl hubStep hubInit).clients →
      (hubBroadcast (cmds.foldl hubStep hubInit) m).chan c =
          (cmds.foldl hubStep hubInit).chan c ∧
        c ∉ (hubBroadcast (cmds.foldl hubStep hubInit) m).clients) ∧
    (∀ (m : Msg) (c : Nat), c ∈ (cmds.foldl hubStep hubInit).clients →
      (c ∈ (hubBroadcast (cmds.foldl hubStep hubInit) m).clients ∧
          ((hubBroadcast (cmds.foldl hubStep hubInit) m).chan c).closed = false ∧
          ((hubBroadcast (cmds.foldl hubStep hubInit) m).chan c).buf =
            ((cmds.foldl hubStep hubInit).chan c).buf ++ [m]) ∨
        (c ∉ (hubBroadcast (cmds.foldl hubStep hubInit) m).clients ∧
          ((hubBroadcast (cmds.foldl hubStep hubInit) m).chan c).closed = true)) := by
  obtain ⟨hnd, hopen⟩ := WFHub_trace cmds
  refine ⟨⟨hnd, hopen⟩, fun m c hc => hubBroadcast_notin _ m c hc, fun m c hc => ?_⟩
  by_cases hfree : ((cmds.foldl hubStep hubInit).chan c).buf.length <
      ((cmds.foldl hubStep hubInit).chan c).cap
  · obtain ⟨h1, h2⟩ := hubBroadcast_free _ m c hnd hc hfree
    left
    refine ⟨h2, ?_, by rw [h1]⟩
    rw [h1]
    exact hopen c hc
  · obtain ⟨h1, h2⟩ := hubBroadcast_full _ m c hnd hc hfree
    right
    exact ⟨h2, by rw [h1]; rfl⟩

/-- Witness for C3 on the concrete trace register 1 then unregister 1: the
resulting registry is duplicate-free and a broadcast leaves the departed
session's queue untouched. -/
theorem hub_run_serialized_consistency_witness :
    ([HubCmd.registerCmd 1, HubCmd.unregisterCmd 1].foldl hubStep hubInit).clients.Nodup ∧
    (hubBroadcast
        ([HubCmd.registerCmd 1, HubCmd.unregisterCmd 1].foldl hubStep hubInit) "a").chan 1 =
      ([HubCmd.registerCmd 1, HubCmd.unregisterCmd 1].foldl hubStep hubInit).chan 1 := by
  have h := hub_run_serialized_consistency [HubCmd.registerCmd 1, HubCmd.unregisterCmd 1]
  exact ⟨h.1.1, (h.2.1 "a" 1 (by decide)).1⟩

/-- C4: unregister is idempotent — on an already-absent session it is a
complete no-op (the state, hence the registry size and the queue, is
unchanged, and the queue is not closed a second time), so two successive
unregisters equal one; the first unregister of a present session removes it
from the registry and closes its outbound queue, preserving its buffered
messages so the writer observes closure. -/
theorem unregister_idempotent (s : HubState) (c : Nat) (hnd : s.clients.Nodup) :
    (c ∉ s.clients → hubUnregister s c = s) ∧
    hubUnregister (hubUnregister s c) c = hubUnregister s c ∧
    (hubUnregister (hubUnregister s c) c).clients.length =
      (hubUnregister s c).clients.length ∧
    (c ∈ s.clients →
      c ∉ (hubUnregister s c).clients ∧
      ((hubUnregister s c).chan c).closed = true ∧
      ((hubUnregister s c).chan c).buf = (s.chan c).buf) := by
  have habsent : ∀ (t : HubState), c ∉ t.clients → hubUnregister t c = t := by
    intro t ht
    unfold hubUnregister
    rw [if_neg ht]
  have hidem : hubUnregister (hubUnregister s c) c = hubUnregister s c := by
    by_cases hc : c ∈ s.clients
    · apply habsent
      unfold hubUnregister
      rw [if_pos hc]
      intro hmem
      exact (hnd.mem_erase_iff.1 hmem).1 rfl
    · rw [habsent s hc]
      exact habsent s hc
  refine ⟨habsent s, hidem, by rw [hidem], fun hc => ?_⟩
  unfold hubUnregister
  rw [if_pos hc]
  refine ⟨fun hmem => (hnd.mem_erase_iff.1 hmem).1 rfl, ?_, ?_⟩
  · simp [updateChan, closeChan]
  · simp [updateChan, closeChan]

/-- Witness for C4 on a concrete two-session registry: unregistering
session 1 twice equals unregistering it once, and the first call removes it
and closes its queue. -/
theorem unregister_idempotent_witness :
    hubUnregister (hubUnregister ⟨[1, 2], fun _ => freshChan⟩ 1) 1 =
      hubUnregister ⟨[1, 2], fun _ => freshChan⟩ 1 ∧
    1 ∉ (hubUnregister ⟨[1, 2], fun _ => freshChan⟩ 1).clients ∧
    ((hubUnregister ⟨[1, 2], fun _ => freshChan⟩ 1).chan 1).closed = true := by
  have h := unregister_idempotent ⟨[1, 2], fun _ => freshChan⟩ 1 (by decide)
  exact ⟨h.2.1, (h.2.2.2 (by decide)).1, (h.2.2.2 (by decide)).2.1⟩

/-- C10: when the hub closes a session's queue — on unregister or on
queue-overflow eviction during a broadcast — the buffered messages are
preserved by the close, and the session's writer, consuming the closed
queue over an error-free transport, writes exactly those messages in queue
order and only then emits the close frame as its final write: closing the
queue prevents new enqueues but drops nothing already accepted. -/
theorem writer_drains_before_close (s : HubState) (m : Msg) (c : Nat)
    (hnd : s.clients.Nodup) (hc : c ∈ s.clients) :
    (((hubUnregister s c).chan c).closed = true ∧
     ((hubUnregister s c).chan c).buf = (s.chan c).buf ∧
     deliveredMsgs (writePumpClosed ((hubUnregister s c).chan c).buf) = (s.chan c).buf ∧
     (writePumpClosed ((hubUnregister s c).chan c).buf).getLast? =
       some WSWrite.closeFrame) ∧
    (¬(s.chan c).buf.length < (s.chan c).cap →
      ((hubBroadcast s m).chan c).closed = true ∧
      ((hubBroadcast s m).chan c).buf = (s.chan c).buf ∧
      deliveredMsgs (writePumpClosed ((hubBroadcast s m).chan c).buf) = (s.chan c).buf ∧
      (writePumpClosed ((hubBroadcast s m).chan c).buf).getLast? =
        some WSWrite.closeFrame) := by
  have hbuf : ((hubUnregister s c).chan c).buf = (s.chan c).buf := by
    unfold hubUnregister
    rw [if_pos hc]
    simp [updateChan, closeChan]
  have hcl : ((hubUnregister s c).chan c).closed = true := by
    unfold hubUnregister
    rw [if_pos hc]
    simp [updateChan, closeChan]
  refine ⟨⟨hcl, hbuf, ?_, ?_⟩, fun hfull => ?_⟩
  · rw [hbuf]
    exact (writePump_delivers _).1
  · rw [hbuf]
    exact (writePump_delivers _).2
  · obtain ⟨h1, h2⟩ := hubBroadcast_full s m c hnd hc hfull
    refine ⟨by rw [h1]; rfl, by rw [h1]; rfl, ?_, ?_⟩
    · rw [h1]
      exact (writePump_delivers _).1
    · rw [h1]
      exact (writePump_delivers _).2

/-- Witness for C10: a session with two buffered messages; after
unregister its writer delivers both messages then the close frame, and a
broadcast into the full queue evicts it with the buffer intact. -/
theorem writer_drains_before_close_witness :
    deliveredMsgs (writePumpClosed
        ((hubUnregister ⟨[1], fun _ => ⟨["m1", "m2"], 2, false⟩⟩ 1).chan 1).buf) =
      ["m1", "m2"] ∧
    ((hubBroadcast ⟨[1], fun _ => ⟨["m1", "m2"], 2, false⟩⟩ "x").chan 1).buf =
      ["m1", "m2"] ∧
    ((hubUnregister ⟨[1], fun _ => ⟨["m1", "m2"], 2, false⟩⟩ 1).chan 1).closed = true := by
  have h := writer_drains_before_close ⟨[1], fun _ => ⟨["m1", "m2"], 2, false⟩⟩ "x" 1
    (by decide) (by decide)
  exact ⟨h.1.2.2.1, (h.2 (by decide)).2.1, h.1.1⟩

/-- C9 is contradicted by the code: two ids generated at distinct times are
not always distinct. At Unix-nano times 0 and 1000000 — exactly the one
millisecond apart that TestClientIDGeneration sleeps between its two calls
— both instants fall in the same calendar second and have equal nanosecond
residues modulo 100000, so `generateClientID` yields the identical id for
both, while the spec and the repository's own test require distinct ids. -/
theorem generateClientID_collision :
    generateClientID 0 = generateClientID 1000000 ∧
    (0 : Nat) ≠ 1000000 ∧
    generateClientID 0 = "19700101000000_0" := by
  refine ⟨by decide, by decide, by decide⟩
